import Mathlib

set_option maxRecDepth 8192

/-!
Verification of the conversation-thread store, tool heuristics and
calculator of `08-tracing/agent-tools-threads.py`, and of the `divide`
helper of `09-mcp/simple_demo.py`, via a shallow embedding in Lean.

Python dictionaries preserve insertion order, so `self.threads` is
embedded as an association list; dictionary assignment replaces the
value in place when the key exists and appends a new entry otherwise.
The external pieces (the Azure OpenAI chat call and the Python `eval`
builtin) are not part of this repository; they are abstracted as
function parameters returning `Except`, where `Except.error` stands
for a raised exception.
-/

/-- One role-tagged message of a conversation thread. -/
structure Msg where
  role : String
  content : String
deriving DecidableEq, Repr

/-- The mutable state of `AgentWithTools`: the `self.threads` dictionary. -/
structure AgentState where
  threads : List (String × List Msg)
deriving DecidableEq, Repr

/-- Dictionary read, `self.threads[tid]` when present. -/
def assocGet : List (String × List Msg) → String → Option (List Msg)
  | [], _ => none
  | (k, v) :: rest, tid => if k = tid then some v else assocGet rest tid

/-- Dictionary assignment `self.threads[tid] = v`: replace in place if the
key exists, append a new entry otherwise (Python dict order semantics). -/
def assocSet : List (String × List Msg) → String → List Msg → List (String × List Msg)
  | [], tid, v => [(tid, v)]
  | (k, w) :: rest, tid, v =>
      if k = tid then (tid, v) :: rest else (k, w) :: assocSet rest tid v

/-- The system prompt inserted by `create_thread`
(`agent-tools-threads.py`, lines 92-105). -/
def systemPrompt : String :=
  "You are a helpful assistant with access to weather and calculator tools.
                
Available tools:
- get_weather(location): Get weather information for a location
- calculate(expression): Perform mathematical calculations

When a user asks about weather, use the get_weather tool.
When a user asks for calculations, use the calculate tool.
Always be helpful and provide clear responses."

/-- The system message placed first in every newly created thread. -/
def systemMsg : Msg := ⟨"system", systemPrompt⟩

/-- The thread id used by `create_thread`: the given one, or
`thread_` followed by the current thread count plus one. -/
def threadIdFor (s : AgentState) (tidOpt : Option String) : String :=
  match tidOpt with
  | some t => t
  | none => "thread_" ++ toString (s.threads.length + 1)

/-- `AgentWithTools.create_thread` (lines 87-108): pick the id, store a
fresh one-element message list holding the system prompt, return the id. -/
def create_thread (s : AgentState) (tidOpt : Option String) : String × AgentState :=
  let tid := threadIdFor s tidOpt
  (tid, ⟨assocSet s.threads tid [systemMsg]⟩)

/-- `AgentWithTools.get_thread_messages` (lines 110-112):
`self.threads.get(thread_id, [])`, a pure read of the dictionary. -/
def get_thread_messages (s : AgentState) (tid : String) : List Msg :=
  (assocGet s.threads tid).getD []

/-- `AgentWithTools.add_message_to_thread` (lines 114-122): create the
thread if missing, then append the role and content pair to its list. -/
def add_message_to_thread (s : AgentState) (tid role content : String) : AgentState :=
  let s1 := match assocGet s.threads tid with
            | none => (create_thread s (some tid)).2
            | some _ => s
  ⟨assocSet s1.threads tid ((assocGet s1.threads tid).getD [] ++ [⟨role, content⟩])⟩

/-- `divide` of `09-mcp/simple_demo.py` (lines 27-32): raise on a zero
divisor, otherwise return `a / b`. The float division of two Python ints
is a language builtin outside this repository; it is abstracted as
`truediv`, with `Except.error` standing for an exception raised by the
builtin (such as OverflowError on quotients beyond the double range) and
the rational standing for the float value it returns. -/
def divide (truediv : Int → Int → Except String ℚ) (a b : Int) : Except String ℚ :=
  if b = 0 then Except.error "Cannot divide by zero!"
  else truediv a b

/-- Model of the CPython int true division builtin at the overflow
boundary: the builtin rounds the exact quotient to double precision and
raises OverflowError when the magnitude of the exact quotient reaches
2 ^ 1024 - 2 ^ 970, the least magnitude that rounds to infinity; the
in-range rounding itself is kept abstract as `rnd`. -/
def cpythonTruediv (rnd : ℚ → ℚ) (a b : Int) : Except String ℚ :=
  if (2 : ℚ) ^ 1024 - (2 : ℚ) ^ 970 ≤ |(a : ℚ) / (b : ℚ)| then
    Except.error "integer division result too large for a float"
  else Except.ok (rnd ((a : ℚ) / (b : ℚ)))

/-- The character whitelist of `CalculatorTool.calculate`:
`set('0123456789+-*/()., ')`. -/
def allowed_chars : List Char :=
  ['0', '1', '2', '3', '4', '5', '6', '7', '8', '9',
   '+', '-', '*', '/', '(', ')', '.', ',', ' ']

/-- The whitelist test of `calculate`:
`all(c in allowed_chars for c in expression)`. -/
def validExpr (expression : String) : Bool :=
  expression.toList.all (fun c => allowed_chars.contains c)

/-- `CalculatorTool.calculate` (lines 49-61). The Python `eval` builtin is
external; it is abstracted as `evalPy`, whose `Except.error` case stands
for a raised exception, caught by the `except` clause. -/
def calculate (evalPy : String → Except String String) (expression : String) : String :=
  if validExpr expression then
    match evalPy expression with
    | Except.ok result => "The result of " ++ expression ++ " is " ++ result
    | Except.error e => "Error calculating " ++ expression ++ ": " ++ e
  else
    "Error: Invalid characters in expression"

/-- Substring test helper: does the needle occur at the head of the
haystack character list. -/
def leadMatch : List Char → List Char → Bool
  | [], _ => true
  | _ :: _, [] => false
  | n :: ns, h :: hs => n == h && leadMatch ns hs

/-- Substring test over character lists, the embedding of the Python
`needle in haystack` operator on strings. -/
def subList (needle : List Char) : List Char → Bool
  | [] => needle.isEmpty
  | h :: t => leadMatch needle (h :: t) || subList needle t

/-- Python `needle in hay` for strings. -/
def strContains (hay needle : String) : Bool :=
  subList needle.toList hay.toList

/-- Python `str.lower()`, embedded as a character-wise map. -/
def lowerStr (s : String) : String :=
  String.mk (s.toList.map Char.toLower)

/-- Accumulating worker for `splitWs`. -/
def splitWsAux : List Char → List Char → List String
  | [], acc => if acc.isEmpty then [] else [String.mk acc.reverse]
  | c :: rest, acc =>
      if c.isWhitespace then
        if acc.isEmpty then splitWsAux rest []
        else String.mk acc.reverse :: splitWsAux rest []
      else splitWsAux rest (c :: acc)

/-- Python `str.split()` with no argument: split on whitespace runs and
drop the empty pieces. -/
def splitWs (s : String) : List String :=
  splitWsAux s.toList []

/-- Python `str.strip(bad)`: remove leading and trailing characters that
belong to the given set. -/
def stripBoth (bad : List Char) (s : String) : String :=
  String.mk (((s.toList.dropWhile (fun c => bad.contains c)).reverse.dropWhile
    (fun c => bad.contains c)).reverse)

/-- Python `str.strip()` with no argument: remove leading and trailing
whitespace. -/
def trimWs (s : String) : String :=
  String.mk (((s.toList.dropWhile Char.isWhitespace).reverse.dropWhile
    Char.isWhitespace).reverse)

/-- The punctuation set stripped from an extracted location,
`.strip(".,!?")` in `detect_tool_usage`. -/
def puncts : List Char := ['.', ',', '!', '?']

/-- The weather keyword list of `detect_tool_usage` (line 129). -/
def weather_keywords : List String :=
  ["weather", "temperature", "rain", "sunny", "cloudy"]

/-- The calculator keyword list of `detect_tool_usage` (line 139). -/
def calc_keywords : List String :=
  ["calculate", "compute", "math", "+", "-", "*", "/", "="]

/-- The location marker words of `detect_tool_usage` (line 134). -/
def locWords : List String := ["in", "for", "at"]

/-- The location-extraction loop of `detect_tool_usage` (lines 132-136):
scan the whitespace tokens for one whose lowercase form is a marker word
and that has a successor token; return that successor stripped of the
punctuation set on both ends. -/
def extractLocation : List String → Option String
  | [] => none
  | [_] => none
  | w :: next :: rest =>
      if locWords.contains (lowerStr w) then some (stripBoth puncts next)
      else extractLocation (next :: rest)

/-- Membership in the character class of the regex
`[\d\+\-\*/\(\)\.\s]+` used by the calculator branch. -/
def isMathChar (c : Char) : Bool :=
  c.isDigit || ['+', '-', '*', '/', '(', ')', '.'].contains c || c.isWhitespace

/-- Accumulating worker for `mathRuns`. -/
def mathRunsAux : List Char → List Char → List (List Char)
  | [], acc => if acc.isEmpty then [] else [acc.reverse]
  | c :: rest, acc =>
      if isMathChar c then mathRunsAux rest (c :: acc)
      else if acc.isEmpty then mathRunsAux rest []
      else acc.reverse :: mathRunsAux rest []

/-- `re.findall` of the regex `[\d\+\-\*/\(\)\.\s]+`: the maximal runs of
math-class characters, in order. -/
def mathRuns (cs : List Char) : List (List Char) :=
  mathRunsAux cs []

/-- Python `max(matches, key=len)`: the first run of maximal length. -/
def maxByLen : List (List Char) → Option (List Char)
  | [] => none
  | x :: xs => some (xs.foldl (fun best y => if best.length < y.length then y else best) x)

/-- The calculator branch of `detect_tool_usage` (lines 138-147): if some
calculator keyword occurs in the lowercased message, take the longest
regex match of the math character class, trimmed of whitespace. -/
def detectCalc (message : String) : Option (String × String) :=
  if calc_keywords.any (fun k => strContains (lowerStr message) k) then
    match maxByLen (mathRuns message.toList) with
    | some m => some ("calculate", trimWs (String.mk m))
    | none => none
  else none

/-- `AgentWithTools.detect_tool_usage` (lines 124-149). The weather branch
fires when a weather keyword occurs in the lowercased message, but it only
returns when the location loop finds a marker word with a successor;
otherwise control falls through to the calculator branch. -/
def detect_tool_usage (message : String) : Option (String × String) :=
  if weather_keywords.any (fun k => strContains (lowerStr message) k) then
    match extractLocation (splitWs message) with
    | some location => some ("get_weather", location)
    | none => detectCalc message
  else detectCalc message

/-- Reading back the key just assigned yields the assigned value. -/
theorem assocGet_assocSet_self (l : List (String × List Msg)) (tid : String) (v : List Msg) :
    assocGet (assocSet l tid v) tid = some v := by
  induction l with
  | nil => simp [assocGet, assocSet]
  | cons p rest ih =>
    obtain ⟨k, w⟩ := p
    by_cases h : k = tid
    · simp [assocGet, assocSet, h]
    · simp [assocGet, assocSet, h, ih]

/-- Assigning one key leaves every other key unchanged. -/
theorem assocGet_assocSet_ne (l : List (String × List Msg)) (tid k : String) (v : List Msg)
    (h : k ≠ tid) : assocGet (assocSet l tid v) k = assocGet l k := by
  induction l with
  | nil => simp [assocGet, assocSet, Ne.symm h]
  | cons p rest ih =>
    obtain ⟨k1, w⟩ := p
    by_cases h1 : k1 = tid
    · subst h1
      simp [assocGet, assocSet, Ne.symm h]
    · simp only [assocSet, if_neg h1, assocGet]
      by_cases h2 : k1 = k
      · simp [h2]
      · simp [h2, ih]

/-- Assigning a key that is not present grows the dictionary by one entry. -/
theorem assocSet_length_fresh (l : List (String × List Msg)) (tid : String) (v : List Msg)
    (h : assocGet l tid = none) : (assocSet l tid v).length = l.length + 1 := by
  induction l with
  | nil => simp [assocSet]
  | cons p rest ih =>
    obtain ⟨k, w⟩ := p
    by_cases hk : k = tid
    · simp [assocGet, hk] at h
    · simp only [assocGet, if_neg hk] at h
      simp [assocSet, hk, ih h]

/-- Claim C2: appending to a missing thread id first creates the thread,
so afterwards it exists and holds exactly the system message followed by
the appended role and content pair. -/
theorem add_message_creates_missing_thread (s : AgentState) (tid role content : String)
    (h : assocGet s.threads tid = none) :
    assocGet (add_message_to_thread s tid role content).threads tid =
      some [systemMsg, ⟨role, content⟩] := by
  unfold add_message_to_thread
  rw [h]
  simp only [create_thread, threadIdFor]
  rw [assocGet_assocSet_self, assocGet_assocSet_self]
  rfl

/-- Witness for C2 at the empty store and the thread id t. -/
theorem add_message_creates_missing_thread_w :
    assocGet (AgentState.mk []).threads "t" = none ∧
    assocGet (add_message_to_thread ⟨[]⟩ "t" "user" "hi").threads "t" =
      some [systemMsg, ⟨"user", "hi"⟩] :=
  ⟨rfl, add_message_creates_missing_thread ⟨[]⟩ "t" "user" "hi" rfl⟩

/-- Claim C9: reading the messages of a missing thread id returns the
empty list. The embedded `get_thread_messages`, like the Python
`dict.get` it models, is a pure read and cannot change the store. -/
theorem get_thread_messages_missing (s : AgentState) (tid : String)
    (h : assocGet s.threads tid = none) :
    get_thread_messages s tid = [] := by
  unfold get_thread_messages
  rw [h]
  rfl

/-- Witness for C9 at the empty store. -/
theorem get_thread_messages_missing_w :
    assocGet (AgentState.mk []).threads "ghost" = none ∧
    get_thread_messages ⟨[]⟩ "ghost" = [] :=
  ⟨rfl, get_thread_messages_missing ⟨[]⟩ "ghost" rfl⟩

/-- Claim C4, counterexample: with the builtin division modelled at the
CPython overflow boundary, dividing 2 ^ 1024 by 1 raises OverflowError
even though the divisor is nonzero, so the claim that `divide` never
raises for a nonzero divisor fails on the source. -/
theorem divide_spec_cx :
    (1 : Int) ≠ 0 ∧
    divide (cpythonTruediv id) (2 ^ 1024) 1 =
      Except.error "integer division result too large for a float" := by
  constructor
  · decide
  · have hc : (2 : ℚ) ^ 1024 - (2 : ℚ) ^ 970 ≤
        |(((2 : Int) ^ 1024 : Int) : ℚ) / ((1 : Int) : ℚ)| := by
      push_cast
      rw [div_one, abs_of_nonneg (by positivity)]
      have h970 : (0 : ℚ) ≤ (2 : ℚ) ^ 970 := by positivity
      linarith
    simp only [divide, cpythonTruediv]
    rw [if_neg (by norm_num : ¬ (1 : Int) = 0), if_pos hc]

/-- Claim C4 as amended: `divide` by zero raises the zero-divisor error
rather than returning a value, and for every nonzero divisor the zero
check passes and `divide` returns exactly the outcome of the builtin
float division of `a` by `b`, quotient or exception. -/
theorem divide_spec (truediv : Int → Int → Except String ℚ) (a b : Int) (h : b ≠ 0) :
    divide truediv a 0 = Except.error "Cannot divide by zero!" ∧
    divide truediv a b = truediv a b := by
  constructor
  · rfl
  · simp [divide, h]

/-- Witness for the amended C4 theorem at 7 and 2 with the modelled
builtin division. -/
theorem divide_spec_w :
    (2 : Int) ≠ 0 ∧
    (divide (cpythonTruediv id) 7 0 = Except.error "Cannot divide by zero!" ∧
     divide (cpythonTruediv id) 7 2 = cpythonTruediv id 7 2) :=
  ⟨by decide, divide_spec (cpythonTruediv id) 7 2 (by decide)⟩

/-- Modelled from the spec: the character class named by the spec sentence
about the calculator, namely digits, the four operators, parentheses and
whitespace, for comparison with the whitelist of the code. -/
def specAllowedChar (c : Char) : Bool :=
  c.isDigit || ['+', '-', '*', '/', '(', ')'].contains c || c.isWhitespace

/-- Claim C3, counterexample: the code whitelist also admits the period
(so the expression 1.5 is evaluated, not rejected), while the tab, a
whitespace character, is rejected; both contradict the claimed class of
digits, operators, parentheses and whitespace. -/
theorem calculate_char_filter_cx :
    specAllowedChar '.' = false ∧
    validExpr "1.5" = true ∧
    calculate (fun _ => Except.ok "1.5") "1.5" = "The result of 1.5 is 1.5" ∧
    specAllowedChar '\t' = true ∧
    validExpr (String.mk ['1', '\t', '2']) = false ∧
    calculate (fun _ => Except.ok "3") (String.mk ['1', '\t', '2']) =
      "Error: Invalid characters in expression" := by
  refine ⟨by decide, by decide, by decide, by decide, by decide, by decide⟩

/-- Claim C3 as amended: `calculate` evaluates the expression exactly when
every character is a digit, an operator, a parenthesis, a period, a comma
or a space, and returns the invalid-characters error whenever some
character falls outside that whitelist. -/
theorem calculate_char_filter (evalPy : String → Except String String) (expression : String) :
    ((∃ c ∈ expression.toList, allowed_chars.contains c = false) →
      calculate evalPy expression = "Error: Invalid characters in expression") ∧
    ((∀ c ∈ expression.toList, allowed_chars.contains c = true) →
      calculate evalPy expression =
        match evalPy expression with
        | Except.ok result => "The result of " ++ expression ++ " is " ++ result
        | Except.error e => "Error calculating " ++ expression ++ ": " ++ e) := by
  constructor
  · rintro ⟨c, hc, hcc⟩
    have hv : validExpr expression = false := by
      by_cases hv : validExpr expression
      · exfalso
        unfold validExpr at hv
        rw [List.all_eq_true] at hv
        have h1 := hv c hc
        rw [hcc] at h1
        exact Bool.false_ne_true h1
      · simpa using hv
    simp [calculate, hv]
  · intro hall
    have hv : validExpr expression = true := by
      unfold validExpr
      rw [List.all_eq_true]
      exact hall
    simp [calculate, hv]

/-- Witness for the amended C3 theorem at a concrete evaluator and the
expressions 1&1 (rejected) and 2+3 (evaluated). -/
theorem calculate_char_filter_w :
    calculate (fun _ => Except.ok "5") "1&1" = "Error: Invalid characters in expression" ∧
    calculate (fun _ => Except.ok "5") "2+3" = "The result of 2+3 is 5" := by
  constructor
  · exact (calculate_char_filter (fun _ => Except.ok "5") "1&1").1 ⟨'&', by decide, by decide⟩
  · have h := (calculate_char_filter (fun _ => Except.ok "5") "2+3").2 (by decide)
    simpa using h

/-- Claim C10: `calculate` is total; every call returns either the
invalid-characters string, a result string for a successful evaluation,
or the calculating-error string when the evaluation raises. -/
theorem calculate_total (evalPy : String → Except String String) (expression : String) :
    calculate evalPy expression = "Error: Invalid characters in expression" ∨
    (∃ r, evalPy expression = Except.ok r ∧
      calculate evalPy expression = "The result of " ++ expression ++ " is " ++ r) ∨
    (∃ e, evalPy expression = Except.error e ∧
      calculate evalPy expression = "Error calculating " ++ expression ++ ": " ++ e) := by
  by_cases hv : validExpr expression
  · cases he : evalPy expression with
    | ok r => exact Or.inr (Or.inl ⟨r, rfl, by simp [calculate, hv, he]⟩)
    | error e => exact Or.inr (Or.inr ⟨e, rfl, by simp [calculate, hv, he]⟩)
  · exact Or.inl (by simp [calculate, Bool.of_not_eq_true hv])

/-- Claim C5, counterexample: starting from an empty store, create the
thread named thread_2 explicitly; the store then holds one thread, so the
next two no-argument calls both generate thread_2, which is not a fresh
id — successive no-argument calls are not always distinct. -/
theorem create_thread_sequential_cx :
    (create_thread (create_thread ⟨[]⟩ (some "thread_2")).2 none).1 = "thread_2" ∧
    (create_thread (create_thread (create_thread ⟨[]⟩ (some "thread_2")).2 none).2 none).1 =
      "thread_2" := by
  refine ⟨by decide, by decide⟩

/-- Claim C5 as amended: a no-argument `create_thread` returns the id
thread_ followed by the thread count plus one, and when that id is not
already a key the count grows by one, so the next generated id is higher;
when the id already exists the call resets that thread in place and the
count, hence the next generated id, stays the same. -/
theorem create_thread_auto_id (s : AgentState)
    (h : assocGet s.threads ("thread_" ++ toString (s.threads.length + 1)) = none) :
    (create_thread s none).1 = "thread_" ++ toString (s.threads.length + 1) ∧
    ((create_thread s none).2).threads.length = s.threads.length + 1 := by
  constructor
  · rfl
  · simp only [create_thread, threadIdFor]
    exact assocSet_length_fresh _ _ _ h

/-- Witness for the amended C5 theorem at the empty store. -/
theorem create_thread_auto_id_w :
    assocGet (AgentState.mk []).threads
        ("thread_" ++ toString ((AgentState.mk []).threads.length + 1)) = none ∧
    ((create_thread ⟨[]⟩ none).1 =
        "thread_" ++ toString ((AgentState.mk []).threads.length + 1) ∧
      ((create_thread (⟨[]⟩ : AgentState) none).2).threads.length =
        (AgentState.mk []).threads.length + 1) :=
  ⟨rfl, create_thread_auto_id ⟨[]⟩ rfl⟩

/-- Claim C6, counterexample: the message weather 2+2 contains the weather
keyword weather, yet detection returns the calculator capability, because
the weather branch finds no location marker and falls through to the
calculator keyword list. -/
theorem detect_weather_priority_cx :
    "weather" ∈ weather_keywords ∧
    strContains (lowerStr "weather 2+2") "weather" = true ∧
    detect_tool_usage "weather 2+2" = some ("calculate", "2+2") := by
  refine ⟨by decide, by decide, by decide⟩

/-- Claim C6 as amended: when the lowercased message contains a weather
keyword and the token scan finds a marker word followed by a token, the
weather capability is chosen with that location and the calculator list
is never consulted; without such a marker the weather branch falls
through to the calculator detection. -/
theorem detect_weather_priority (msg loc : String)
    (h1 : weather_keywords.any (fun k => strContains (lowerStr msg) k) = true)
    (h2 : extractLocation (splitWs msg) = some loc) :
    detect_tool_usage msg = some ("get_weather", loc) := by
  simp [detect_tool_usage, h1, h2]

/-- Witness for the amended C6 theorem on a message holding both a weather
keyword and a calculator operator character. -/
theorem detect_weather_priority_w :
    weather_keywords.any (fun k => strContains (lowerStr "weather in Oslo, 2+2") k) = true ∧
    extractLocation (splitWs "weather in Oslo, 2+2") = some "Oslo" ∧
    detect_tool_usage "weather in Oslo, 2+2" = some ("get_weather", "Oslo") :=
  ⟨by decide, by decide,
    detect_weather_priority "weather in Oslo, 2+2" "Oslo" (by decide) (by decide)⟩

/-- A location returned by the extraction loop is some whitespace token of
the scanned list, stripped of the punctuation set on both ends. -/
theorem extractLocation_mem (ws : List String) (loc : String)
    (h : extractLocation ws = some loc) :
    ∃ w ∈ ws, loc = stripBoth puncts w := by
  induction ws with
  | nil => simp [extractLocation] at h
  | cons w rest ih =>
    cases rest with
    | nil => simp [extractLocation] at h
    | cons next rest2 =>
      by_cases hw : locWords.contains (lowerStr w)
      · rw [extractLocation, if_pos hw] at h
        exact ⟨next, by simp, (Option.some.inj h).symm⟩
      · rw [extractLocation, if_neg hw] at h
        obtain ⟨w2, hw2, hl⟩ := ih h
        exact ⟨w2, List.mem_cons_of_mem _ hw2, hl⟩

/-- The fold used by `maxByLen` returns the seed or a list element, never
shorter than the seed nor than any element. -/
theorem foldlMax_spec (xs : List (List Char)) (a : List Char) :
    (xs.foldl (fun best y => if best.length < y.length then y else best) a = a ∨
     xs.foldl (fun best y => if best.length < y.length then y else best) a ∈ xs) ∧
    a.length ≤ (xs.foldl (fun best y => if best.length < y.length then y else best) a).length ∧
    ∀ x ∈ xs, x.length ≤ (xs.foldl (fun best y => if best.length < y.length then y else best) a).length := by
  induction xs generalizing a with
  | nil => simp
  | cons y ys ih =>
    simp only [List.foldl_cons]
    by_cases h : a.length < y.length
    · rw [if_pos h]
      obtain ⟨hmem, hle, hall⟩ := ih y
      refine ⟨?_, le_trans (le_of_lt h) hle, ?_⟩
      · cases hmem with
        | inl he => exact Or.inr (by rw [he]; exact List.mem_cons_self y ys)
        | inr hm => exact Or.inr (List.mem_cons_of_mem _ hm)
      · intro x hx
        rcases List.mem_cons.mp hx with rfl | hx2
        · exact hle
        · exact hall x hx2
    · rw [if_neg h]
      obtain ⟨hmem, hle, hall⟩ := ih a
      refine ⟨?_, hle, ?_⟩
      · cases hmem with
        | inl he => exact Or.inl he
        | inr hm => exact Or.inr (List.mem_cons_of_mem _ hm)
      · intro x hx
        rcases List.mem_cons.mp hx with rfl | hx2
        · exact le_trans (Nat.le_of_not_lt h) hle
        · exact hall x hx2

/-- The fold used by `maxByLen` keeps the earliest maximum: the seed and
the elements split around the result, with strictly shorter lists before
it and no longer list after it. -/
theorem foldlMax_split (xs : List (List Char)) (a : List Char) :
    ∃ pre post,
      a :: xs =
        pre ++ (xs.foldl (fun best y => if best.length < y.length then y else best) a) :: post ∧
      (∀ p ∈ pre,
        p.length < (xs.foldl (fun best y => if best.length < y.length then y else best) a).length) ∧
      (∀ q ∈ post,
        q.length ≤ (xs.foldl (fun best y => if best.length < y.length then y else best) a).length) := by
  induction xs generalizing a with
  | nil => exact ⟨[], [], rfl, by simp, by simp⟩
  | cons y ys ih =>
    simp only [List.foldl_cons]
    by_cases h : a.length < y.length
    · rw [if_pos h]
      obtain ⟨pre, post, hsplit, hpre, hpost⟩ := ih y
      have hyr := (foldlMax_spec ys y).2.1
      refine ⟨a :: pre, post, ?_, ?_, hpost⟩
      · rw [List.cons_append, ← hsplit]
      · intro p hp
        rcases List.mem_cons.mp hp with rfl | hp2
        · exact lt_of_lt_of_le h hyr
        · exact hpre p hp2
    · rw [if_neg h]
      obtain ⟨pre, post, hsplit, hpre, hpost⟩ := ih a
      set r := ys.foldl (fun best y => if best.length < y.length then y else best) a with hr
      cases pre with
      | nil =>
        rw [List.nil_append] at hsplit
        injection hsplit with h1 h2
        refine ⟨[], y :: ys, ?_, by simp, ?_⟩
        · rw [List.nil_append, ← h1]
        · intro q hq
          rcases List.mem_cons.mp hq with hqy | hq2
          · rw [hqy, ← h1]
            exact Nat.le_of_not_lt h
          · rw [h2] at hq2
            exact hpost q hq2
      | cons p0 pre2 =>
        rw [List.cons_append] at hsplit
        injection hsplit with h1 h2
        have hp0 : p0.length < r.length := hpre p0 (List.mem_cons_self p0 pre2)
        refine ⟨a :: y :: pre2, post, ?_, ?_, hpost⟩
        · rw [List.cons_append, List.cons_append, ← h2]
        · intro p hp
          rcases List.mem_cons.mp hp with hpa | hp2
          · rw [hpa, h1]
            exact hp0
          · rcases List.mem_cons.mp hp2 with hpy | hp3
            · calc p.length = y.length := by rw [hpy]
                _ ≤ a.length := Nat.le_of_not_lt h
                _ = p0.length := by rw [h1]
                _ < r.length := hp0
            · exact hpre p (List.mem_cons_of_mem _ hp3)

/-- The Python `max(matches, key=len)` call returns the earliest run of
maximal length: every run before it is strictly shorter and every run
after it is no longer. -/
theorem maxByLen_first (l : List (List Char)) (m : List Char)
    (h : maxByLen l = some m) :
    ∃ pre post, l = pre ++ m :: post ∧ (∀ p ∈ pre, p.length < m.length) ∧
      (∀ q ∈ post, q.length ≤ m.length) := by
  cases l with
  | nil => cases h
  | cons x xs =>
    have hm := Option.some.inj h
    obtain ⟨pre, post, hsplit, hpre, hpost⟩ := foldlMax_split xs x
    rw [hm] at hsplit hpre hpost
    exact ⟨pre, post, hsplit, hpre, hpost⟩

/-- A hit of the calculator branch carries the name calculate and, as
argument, the earliest maximal-length run of math-class characters,
trimmed of surrounding whitespace. -/
theorem detectCalc_shape (msg name arg : String)
    (h : detectCalc msg = some (name, arg)) :
    name = "calculate" ∧ ∃ pre m post,
      mathRuns msg.toList = pre ++ m :: post ∧ arg = trimWs (String.mk m) ∧
      (∀ p ∈ pre, p.length < m.length) ∧ (∀ q ∈ post, q.length ≤ m.length) := by
  unfold detectCalc at h
  by_cases hk : calc_keywords.any (fun k => strContains (lowerStr msg) k)
  · rw [if_pos hk] at h
    cases hm : maxByLen (mathRuns msg.toList) with
    | none => rw [hm] at h; cases h
    | some m =>
      rw [hm] at h
      have h1 := Option.some.inj h
      injection h1 with hn ha
      obtain ⟨pre, post, hsplit, hpre, hpost⟩ := maxByLen_first _ _ hm
      exact ⟨hn.symm, pre, m, post, hsplit, ha.symm, hpre, hpost⟩
  · rw [if_neg hk] at h
    cases h

/-- Modelled from the spec: stripping only trailing punctuation, the
reading used by the claim, for comparison with the code strip that also
removes leading punctuation. -/
def specStripTrailing (bad : List Char) (s : String) : String :=
  String.mk ((s.toList.reverse.dropWhile (fun c => bad.contains c)).reverse)

/-- Claim C7, counterexample: on weather in !Paris the code strips the
leading exclamation mark as well, returning Paris, while stripping only
trailing punctuation as the claim states would keep !Paris. -/
theorem detect_argument_extraction_cx :
    detect_tool_usage "weather in !Paris" = some ("get_weather", "Paris") ∧
    specStripTrailing puncts "!Paris" = "!Paris" ∧
    ("Paris" : String) ≠ "!Paris" := by
  refine ⟨by decide, by decide, by decide⟩

/-- Claim C7 as amended: a weather hit carries as argument the token
after the first marker word, as computed by the extraction loop, which
strips the punctuation set from both the leading and the trailing end;
a calculator hit carries the longest run of the math character class
(the split pins it to the earliest run of maximal length, matching the
Python `max` call) trimmed of surrounding whitespace. -/
theorem detect_argument_extraction (msg name arg : String)
    (h : detect_tool_usage msg = some (name, arg)) :
    (name = "get_weather" ∧ extractLocation (splitWs msg) = some arg ∧
      ∃ w ∈ splitWs msg, arg = stripBoth puncts w) ∨
    (name = "calculate" ∧ ∃ pre m post,
      mathRuns msg.toList = pre ++ m :: post ∧ arg = trimWs (String.mk m) ∧
      (∀ p ∈ pre, p.length < m.length) ∧ (∀ q ∈ post, q.length ≤ m.length)) := by
  unfold detect_tool_usage at h
  by_cases hw : weather_keywords.any (fun k => strContains (lowerStr msg) k)
  · rw [if_pos hw] at h
    cases hl : extractLocation (splitWs msg) with
    | none =>
      rw [hl] at h
      exact Or.inr (detectCalc_shape _ _ _ h)
    | some loc =>
      rw [hl] at h
      have h1 := Option.some.inj h
      injection h1 with hn ha
      subst hn
      subst ha
      exact Or.inl ⟨rfl, rfl, extractLocation_mem _ _ hl⟩
  · rw [if_neg hw] at h
    exact Or.inr (detectCalc_shape _ _ _ h)

/-- Witness for the amended C7 theorem on the message weather in !Paris. -/
theorem detect_argument_extraction_w :
    detect_tool_usage "weather in !Paris" = some ("get_weather", "Paris") ∧
    (("get_weather" = "get_weather" ∧
        extractLocation (splitWs "weather in !Paris") = some "Paris" ∧
        ∃ w ∈ splitWs "weather in !Paris", "Paris" = stripBoth puncts w) ∨
      ("get_weather" = "calculate" ∧
        ∃ pre m post, mathRuns ("weather in !Paris").toList = pre ++ m :: post ∧
          "Paris" = trimWs (String.mk m) ∧
          (∀ p ∈ pre, p.length < m.length) ∧ (∀ q ∈ post, q.length ≤ m.length))) :=
  ⟨by decide, detect_argument_extraction "weather in !Paris" "get_weather" "Paris" (by decide)⟩

/-- `WeatherTool.get_weather` (lines 30-43): mock weather lookup with a
default for unknown locations. -/
def get_weather (location : String) : String :=
  let weather :=
    if location = "Amsterdam" then "cloudy with a high of 15°C"
    else if location = "New York" then "sunny with a high of 22°C"
    else if location = "London" then "rainy with a high of 12°C"
    else if location = "Tokyo" then "partly cloudy with a high of 18°C"
    else if location = "Sydney" then "sunny with a high of 25°C"
    else "partly cloudy with a high of 20°C"
  "The weather in " ++ location ++ " is " ++ weather ++ "."

/-- The `self.tools` dispatch table (lines 76-79), looked up by name. -/
def runTool (evalPy : String → Except String String) (name arg : String) : Option String :=
  if name = "get_weather" then some (get_weather arg)
  else if name = "calculate" then some (calculate evalPy arg)
  else none

/-- The enhanced user message built after a tool call (line 182). -/
def enhancedMessage (message tool_result : String) : String :=
  message ++ "\n\nTool result: " ++ tool_result ++
    "\n\nPlease provide a helpful response based on this information."

/-- Mutation of the content of the last message of a list, the embedding
of `self.threads[thread_id][-1]["content"] = ...` (line 183). -/
def setLastContent : List Msg → String → List Msg
  | [], _ => []
  | [m], c => [⟨m.role, c⟩]
  | m :: m2 :: rest, c => m :: setLastContent (m2 :: rest) c

/-- The last-message mutation lifted to the store; the thread is always
present when `run_with_thread` reaches this step. -/
def setThreadLastContent (s : AgentState) (tid c : String) : AgentState :=
  match assocGet s.threads tid with
  | some msgs => ⟨assocSet s.threads tid (setLastContent msgs c)⟩
  | none => s

/-- The tool-dispatch phase of `run_with_thread` (lines 167-183): detect a
tool, execute it when its name is in the table, and rewrite the last
thread message with the enhanced content. -/
def toolPhase (evalPy : String → Except String String) (message thread_id : String)
    (s1 : AgentState) : AgentState :=
  match detect_tool_usage message with
  | some tp =>
      match runTool evalPy tp.1 tp.2 with
      | some tool_result =>
          setThreadLastContent s1 thread_id (enhancedMessage message tool_result)
      | none => s1
  | none => s1

/-- `AgentWithTools.run_with_thread` (lines 151-211). The chat-completion
call is external; it is abstracted as `aiCall` over the thread messages,
with `Except.error` standing for any exception raised inside the `try`
block, which the `except` clause converts to an error string appended to
the thread and returned. -/
def run_with_thread (evalPy : String → Except String String)
    (aiCall : List Msg → Except String String)
    (message thread_id : String) (s : AgentState) : String × AgentState :=
  let s1 := add_message_to_thread s thread_id "user" message
  let s2 := toolPhase evalPy message thread_id s1
  match aiCall (get_thread_messages s2 thread_id) with
  | Except.ok resp => (resp, add_message_to_thread s2 thread_id "assistant" resp)
  | Except.error e =>
      ("Error processing message: " ++ e,
        add_message_to_thread s2 thread_id "assistant" ("Error processing message: " ++ e))

/-- Does a message list start with the system message. -/
def headIsSystem : List Msg → Bool
  | [] => false
  | m :: _ => decide (m = systemMsg)

/-- The thread invariant: every stored thread starts with the system
message. -/
def wfAll (l : List (String × List Msg)) : Bool :=
  l.all (fun p => headIsSystem p.2)

/-- In a well-formed store, every stored message list starts with the
system message. -/
theorem wfAll_get {l : List (String × List Msg)} {k : String} {v : List Msg}
    (hw : wfAll l = true) (hg : assocGet l k = some v) : headIsSystem v = true := by
  induction l with
  | nil => cases hg
  | cons p rest ih =>
    obtain ⟨k1, v1⟩ := p
    rw [wfAll, List.all_cons, Bool.and_eq_true] at hw
    obtain ⟨h1, h2⟩ := hw
    rw [assocGet] at hg
    by_cases hk : k1 = k
    · rw [if_pos hk] at hg
      rw [← Option.some.inj hg]
      exact h1
    · rw [if_neg hk] at hg
      exact ih h2 hg

/-- Assigning a list that starts with the system message preserves the
invariant. -/
theorem wfAll_set {l : List (String × List Msg)} (k : String) (v : List Msg)
    (hw : wfAll l = true) (hv : headIsSystem v = true) :
    wfAll (assocSet l k v) = true := by
  induction l with
  | nil => simpa [wfAll, assocSet] using hv
  | cons p rest ih =>
    obtain ⟨k1, v1⟩ := p
    rw [wfAll, List.all_cons, Bool.and_eq_true] at hw
    obtain ⟨h1, h2⟩ := hw
    rw [assocSet]
    by_cases hk : k1 = k
    · rw [if_pos hk]
      simp only [wfAll, List.all_cons, Bool.and_eq_true]
      exact ⟨hv, h2⟩
    · rw [if_neg hk]
      simp only [wfAll, List.all_cons, Bool.and_eq_true]
      exact ⟨h1, ih h2⟩

/-- Appending never disturbs a system-headed list. -/
theorem headIsSystem_append {xs : List Msg} (ys : List Msg)
    (h : headIsSystem xs = true) : headIsSystem (xs ++ ys) = true := by
  cases xs with
  | nil => simp [headIsSystem] at h
  | cons m t => simpa [headIsSystem] using h

/-- A system-headed list has the system message as its first element. -/
theorem headIsSystem_head? {v : List Msg} (h : headIsSystem v = true) :
    v.head? = some systemMsg := by
  cases v with
  | nil => simp [headIsSystem] at h
  | cons m t =>
    rw [headIsSystem] at h
    rw [of_decide_eq_true h]
    rfl

/-- After `add_message_to_thread` the thread holds its previous messages
(the fresh system singleton when it was missing) plus the appended one. -/
theorem add_message_get_self (s : AgentState) (tid role content : String) :
    ∃ prev, assocGet (add_message_to_thread s tid role content).threads tid =
        some (prev ++ [⟨role, content⟩]) ∧
      ((assocGet s.threads tid = none ∧ prev = [systemMsg]) ∨
        assocGet s.threads tid = some prev) := by
  cases hg : assocGet s.threads tid with
  | none =>
    refine ⟨[systemMsg], ?_, Or.inl ⟨rfl, rfl⟩⟩
    simp only [add_message_to_thread, hg, create_thread, threadIdFor]
    rw [assocGet_assocSet_self, assocGet_assocSet_self]
    rfl
  | some old =>
    refine ⟨old, ?_, Or.inr rfl⟩
    simp only [add_message_to_thread, hg]
    rw [assocGet_assocSet_self]
    rfl

/-- `add_message_to_thread` preserves the thread invariant. -/
theorem add_message_wf (s : AgentState) (tid role content : String)
    (hw : wfAll s.threads = true) :
    wfAll (add_message_to_thread s tid role content).threads = true := by
  cases hg : assocGet s.threads tid with
  | none =>
    simp only [add_message_to_thread, hg, create_thread, threadIdFor]
    rw [assocGet_assocSet_self]
    apply wfAll_set
    · exact wfAll_set _ _ hw (by simp [headIsSystem])
    · exact headIsSystem_append _ (by simp [headIsSystem])
  | some old =>
    simp only [add_message_to_thread, hg]
    exact wfAll_set _ _ hw (headIsSystem_append _ (wfAll_get hw hg))

/-- Rewriting the last content of a list of two or more messages keeps
its head. -/
theorem headIsSystem_setLastContent {m m2 : Msg} {rest : List Msg} (c : String)
    (h : headIsSystem (m :: m2 :: rest) = true) :
    headIsSystem (setLastContent (m :: m2 :: rest) c) = true := by
  simpa [setLastContent, headIsSystem] using h

/-- The last-message mutation preserves the invariant whenever the thread
it touches has a message after its head, as is the case right after the
user message was appended. -/
theorem setThreadLastContent_wf (s : AgentState) (tid c : String) (prev : List Msg)
    (m : Msg) (hw : wfAll s.threads = true) (hp : prev ≠ [])
    (hg : assocGet s.threads tid = some (prev ++ [m])) :
    wfAll (setThreadLastContent s tid c).threads = true := by
  unfold setThreadLastContent
  rw [hg]
  apply wfAll_set _ _ hw
  have hh : headIsSystem (prev ++ [m]) = true := wfAll_get hw hg
  cases prev with
  | nil => exact absurd rfl hp
  | cons p0 pt =>
    have hx : ∃ x xs, (p0 :: pt) ++ [m] = p0 :: x :: xs := by
      cases pt with
      | nil => exact ⟨m, [], rfl⟩
      | cons q qt => exact ⟨q, qt ++ [m], rfl⟩
    obtain ⟨x, xs, hx⟩ := hx
    rw [hx] at hh ⊢
    exact headIsSystem_setLastContent c hh

/-- The tool phase preserves the invariant under the same condition. -/
theorem toolPhase_wf (evalPy : String → Except String String) (message thread_id : String)
    (s1 : AgentState) (prev : List Msg) (m : Msg)
    (hw : wfAll s1.threads = true) (hp : prev ≠ [])
    (hg : assocGet s1.threads thread_id = some (prev ++ [m])) :
    wfAll (toolPhase evalPy message thread_id s1).threads = true := by
  unfold toolPhase
  cases detect_tool_usage message with
  | none => exact hw
  | some tp =>
    dsimp only
    cases runTool evalPy tp.1 tp.2 with
    | none => exact hw
    | some tr => exact setThreadLastContent_wf _ _ _ _ _ hw hp hg

/-- `run_with_thread` preserves the invariant for any outcome of the
external chat call. -/
theorem run_with_thread_wf (evalPy : String → Except String String)
    (aiCall : List Msg → Except String String) (message thread_id : String)
    (s : AgentState) (hw : wfAll s.threads = true) :
    wfAll ((run_with_thread evalPy aiCall message thread_id s).2).threads = true := by
  obtain ⟨prev, hget, hcase⟩ := add_message_get_self s thread_id "user" message
  have hw1 : wfAll (add_message_to_thread s thread_id "user" message).threads = true :=
    add_message_wf _ _ _ _ hw
  have hp : prev ≠ [] := by
    rcases hcase with ⟨_, rfl⟩ | hsome
    · simp
    · intro hnil
      rw [hnil] at hsome
      have h0 := wfAll_get hw hsome
      simp [headIsSystem] at h0
  have hw2 : wfAll ((toolPhase evalPy message thread_id
      (add_message_to_thread s thread_id "user" message)).threads) = true :=
    toolPhase_wf _ _ _ _ _ _ hw1 hp hget
  simp only [run_with_thread]
  cases aiCall (get_thread_messages (toolPhase evalPy message thread_id
      (add_message_to_thread s thread_id "user" message)) thread_id) with
  | ok resp => exact add_message_wf _ _ _ _ hw2
  | error e => exact add_message_wf _ _ _ _ hw2

/-- Claim C1: in a store where every thread starts with the system
message, any stored thread has the system prompt as its first message,
`get_thread_messages` returns the stored list unchanged (it is a pure
read of the dictionary), and `create_thread`, `add_message_to_thread` and
`run_with_thread` each preserve the invariant, so no operation removes
the system prompt or puts another message before it. -/
theorem thread_system_invariant (s : AgentState) (tid2 : String) (msgs : List Msg)
    (tidOpt : Option String) (tid role content message thread_id : String)
    (evalPy : String → Except String String) (aiCall : List Msg → Except String String)
    (hw : wfAll s.threads = true) (hg : assocGet s.threads tid2 = some msgs) :
    msgs.head? = some systemMsg ∧
    get_thread_messages s tid2 = msgs ∧
    wfAll ((create_thread s tidOpt).2).threads = true ∧
    wfAll (add_message_to_thread s tid role content).threads = true ∧
    wfAll ((run_with_thread evalPy aiCall message thread_id s).2).threads = true := by
  refine ⟨headIsSystem_head? (wfAll_get hw hg), ?_, ?_,
    add_message_wf _ _ _ _ hw, run_with_thread_wf _ _ _ _ _ hw⟩
  · unfold get_thread_messages
    rw [hg]
    rfl
  · unfold create_thread
    exact wfAll_set _ _ hw (by simp [headIsSystem])

/-- Witness for C1 on the one-thread store built by `create_thread`. -/
theorem thread_system_invariant_w :
    wfAll (AgentState.mk [("t", [systemMsg])]).threads = true ∧
    assocGet (AgentState.mk [("t", [systemMsg])]).threads "t" = some [systemMsg] ∧
    ([systemMsg].head? = some systemMsg ∧
      get_thread_messages ⟨[("t", [systemMsg])]⟩ "t" = [systemMsg] ∧
      wfAll ((create_thread ⟨[("t", [systemMsg])]⟩ none).2).threads = true ∧
      wfAll (add_message_to_thread ⟨[("t", [systemMsg])]⟩ "t" "user" "hi").threads = true ∧
      wfAll ((run_with_thread (fun _ => Except.ok "1") (fun _ => Except.ok "fine")
        "hello" "t" ⟨[("t", [systemMsg])]⟩).2).threads = true) :=
  ⟨by decide, by decide,
    thread_system_invariant ⟨[("t", [systemMsg])]⟩ "t" [systemMsg] none "t" "user" "hi"
      "hello" "t" (fun _ => Except.ok "1") (fun _ => Except.ok "fine")
      (by decide) (by decide)⟩

/-- Claim C8: when the abstracted chat call raises (the only fallible
step of the embedded `run_with_thread`), the exception is converted to an
error string that is both appended to the thread as an assistant message
and returned as the result; the embedded function is total, so nothing
propagates past the handler. -/
theorem run_with_thread_error (evalPy : String → Except String String)
    (aiCall : List Msg → Except String String) (message thread_id e : String)
    (s : AgentState) (hfail : ∀ ms, aiCall ms = Except.error e) :
    (run_with_thread evalPy aiCall message thread_id s).1 =
      "Error processing message: " ++ e ∧
    ∃ prev,
      assocGet ((run_with_thread evalPy aiCall message thread_id s).2).threads thread_id =
        some (prev ++ [⟨"assistant", "Error processing message: " ++ e⟩]) := by
  refine ⟨?_, ?_⟩
  · simp [run_with_thread, hfail]
  · obtain ⟨prev, hget, _⟩ := add_message_get_self
      (toolPhase evalPy message thread_id (add_message_to_thread s thread_id "user" message))
      thread_id "assistant" ("Error processing message: " ++ e)
    simp only [run_with_thread, hfail]
    exact ⟨prev, hget⟩

/-- Witness for C8 with a chat call that always raises boom. -/
theorem run_with_thread_error_w :
    (∀ ms : List Msg,
      (fun _ : List Msg => (Except.error "boom" : Except String String)) ms =
        Except.error "boom") ∧
    ((run_with_thread (fun _ => Except.ok "1") (fun _ => Except.error "boom")
        "hello" "t" ⟨[]⟩).1 = "Error processing message: " ++ "boom" ∧
      ∃ prev,
        assocGet ((run_with_thread (fun _ => Except.ok "1")
            (fun _ => Except.error "boom") "hello" "t" (⟨[]⟩ : AgentState)).2).threads "t" =
          some (prev ++ [⟨"assistant", "Error processing message: " ++ "boom"⟩])) :=
  ⟨fun _ => rfl,
    run_with_thread_error (fun _ => Except.ok "1") (fun _ => Except.error "boom")
      "hello" "t" "boom" ⟨[]⟩ (fun _ => rfl)⟩
